import Mathlib

/-!
Shallow embedding of the headline-collection and temporal-normalization
pipeline of `src/main.py` (tesla-news-bot).

Modelling conventions:
* Python `str` is modelled as `List Char` (`Str`).
* Python `datetime.datetime` values are modelled as wall-clock records
  (`NaiveDT`); absolute instants are minutes since the civil epoch
  1970-01-01 (`naiveToMin`, Hinnant's days-from-civil algorithm, with
  `Int.tdiv` matching C's truncating division used by that algorithm).
* `pytz` zone handling is modelled with fixed UTC offsets: `Asia/Seoul`
  is +540 minutes; `US/Eastern` is a parameter `etOff` (e.g. -300 in
  winter, -240 in summer).  All comparisons of aware datetimes in the
  source compare absolute instants, which under a fixed offset per zone
  is what `etAbs`/`kstAbs` compute.  No claim in this development
  depends on a DST transition.
* `datetime.strptime` is modelled at the character level, following the
  regexes CPython builds for the directives actually used by the source
  (`%b %d %y %I %M %p`, literal `-`/`:`; a whitespace in the format
  matches one or more whitespace characters; the whole string must be
  consumed; an out-of-range calendar date raises, i.e. yields `none`).
* Fallible Python code (`try`/`except` returning `None`) is `Option`.
-/

abbrev Str := List Char

/-- ASCII whitespace recognised by Python's `str.strip`/`str.split`. -/
def isSpaceC (c : Char) : Bool :=
  c.toNat = 32 || c.toNat = 9 || c.toNat = 10 || c.toNat = 13 || c.toNat = 11 || c.toNat = 12

/-- ASCII lowering, as `str.lower` acts on the ASCII inputs at hand. -/
def lowerChar (c : Char) : Char :=
  if 65 ≤ c.toNat ∧ c.toNat ≤ 90 then Char.ofNat (c.toNat + 32) else c

def lowerStr (s : Str) : Str := s.map lowerChar

def isDig (c : Char) : Bool := 48 ≤ c.toNat && c.toNat ≤ 57

/-- Numeric value of a digit character. -/
def d0 (c : Char) : Nat := c.toNat - 48

/-- Python `str.strip()`. -/
def pyStrip (s : Str) : Str :=
  ((s.dropWhile isSpaceC).reverse.dropWhile isSpaceC).reverse

def splitWsAux : Str → Str → List Str
  | [], cur => if cur = [] then [] else [cur.reverse]
  | c :: rest, cur =>
    if isSpaceC c then
      (if cur = [] then splitWsAux rest [] else cur.reverse :: splitWsAux rest [])
    else splitWsAux rest (c :: cur)

/-- Python `str.split()` with no separator: split on whitespace runs. -/
def pySplitWs (s : Str) : List Str := splitWsAux s []

def isPrefixOfB : Str → Str → Bool
  | [], _ => true
  | _ :: _, [] => false
  | a :: as, b :: bs => if a = b then isPrefixOfB as bs else false

/-- Python `s.lower().startswith(p)` for a lowercase pattern `p`. -/
def startsWithLower (s : Str) (p : Str) : Bool := isPrefixOfB p (lowerStr s)

/-- Python `s.split(",", 1)[-1]`: the part after the first comma, or the
whole string when it has no comma. -/
def afterFirstComma (s : Str) : Str :=
  match s.dropWhile (fun c => !(c == ',')) with
  | [] => s
  | _ :: tail => tail

/-- Python `int(s)` restricted to the digit strings that occur here. -/
def intParse (s : Str) : Option Nat :=
  if s = [] then none
  else if s.all isDig then some (s.foldl (fun n c => n * 10 + d0 c) 0)
  else none

/-- Wall-clock datetime (minute granularity, like the parsed values). -/
structure NaiveDT where
  year : Int
  month : Nat
  day : Nat
  hour : Nat
  minute : Nat
deriving DecidableEq, Repr

/-- Python `datetime.date`, as produced by `datetime.date()`. -/
structure CalDate where
  year : Int
  month : Nat
  day : Nat
deriving DecidableEq, Repr

def dateOf (dt : NaiveDT) : CalDate := ⟨dt.year, dt.month, dt.day⟩

def isLeap (y : Int) : Bool := y % 4 = 0 && (y % 100 ≠ 0 || y % 400 = 0)

def daysInMonth (y : Int) (m : Nat) : Nat :=
  if m = 2 then (if isLeap y then 29 else 28)
  else if m = 4 ∨ m = 6 ∨ m = 9 ∨ m = 11 then 30
  else 31

/-- Validity check of `datetime.datetime(y, m, d, ...)` (which raises
`ValueError` on an out-of-range month or day). -/
def validDate (y : Int) (m d : Nat) : Bool :=
  1 ≤ m && m ≤ 12 && 1 ≤ d && d ≤ daysInMonth y m

/-- Days since 1970-01-01 of a civil date (Hinnant's algorithm; `tdiv`
is C's truncating division, as in the reference implementation). -/
def daysFromCivil (y0 : Int) (m d : Nat) : Int :=
  let y : Int := if m ≤ 2 then y0 - 1 else y0
  let era : Int := Int.tdiv (if 0 ≤ y then y else y - 399) 400
  let yoe : Int := y - era * 400
  let mp : Int := if 2 < m then (m : Int) - 3 else (m : Int) + 9
  let doy : Int := Int.tdiv (153 * mp + 2) 5 + (d : Int) - 1
  let doe : Int := yoe * 365 + Int.tdiv yoe 4 - Int.tdiv yoe 100 + doy
  era * 146097 + doe - 719468

/-- Minutes since 1970-01-01T00:00 of a wall-clock datetime. -/
def naiveToMin (dt : NaiveDT) : Int :=
  daysFromCivil dt.year dt.month dt.day * 1440 + (dt.hour : Int) * 60 + (dt.minute : Int)

/-- Civil date of a day count since 1970-01-01 (Hinnant's inverse). -/
def civilFromDays (z0 : Int) : Int × Nat × Nat :=
  let z : Int := z0 + 719468
  let era : Int := Int.tdiv (if 0 ≤ z then z else z - 146096) 146097
  let doe : Int := z - era * 146097
  let yoe : Int := Int.tdiv (doe - Int.tdiv doe 1460 + Int.tdiv doe 36524 - Int.tdiv doe 146096) 365
  let y : Int := yoe + era * 400
  let doy : Int := doe - (365 * yoe + Int.tdiv yoe 4 - Int.tdiv yoe 100)
  let mp : Int := Int.tdiv (5 * doy + 2) 153
  let d : Int := doy - Int.tdiv (153 * mp + 2) 5 + 1
  let m : Int := if mp < 10 then mp + 3 else mp - 9
  (if m ≤ 2 then y + 1 else y, m.toNat, d.toNat)

/-- Wall-clock datetime of an absolute minute count. -/
def absToNaive (absMin : Int) : NaiveDT :=
  let day : Int := Int.fdiv absMin 1440
  let rem : Int := absMin - day * 1440
  let c := civilFromDays day
  ⟨c.1, c.2.1, c.2.2, (Int.tdiv rem 60).toNat, (Int.emod rem 60).toNat⟩

/-- UTC offset of `Asia/Seoul` in minutes. -/
def kstOffset : Int := 540

/-- Absolute instant of a `US/Eastern` wall clock, offset `etOff`. -/
def etAbs (etOff : Int) (dt : NaiveDT) : Int := naiveToMin dt - etOff

/-- Absolute instant of an `Asia/Seoul` wall clock. -/
def kstAbs (dt : NaiveDT) : Int := naiveToMin dt - kstOffset

/-- `dt_et.astimezone(kst)` as a wall-clock map. -/
def etToKst (etOff : Int) (dt : NaiveDT) : NaiveDT :=
  absToNaive (etAbs etOff dt + kstOffset)

/-- `now_kst.astimezone(et)` as a wall-clock map. -/
def etNowOf (now_kst : NaiveDT) (etOff : Int) : NaiveDT :=
  absToNaive (kstAbs now_kst + etOff)

/-- Month number of a lowered three-letter abbreviation (`%b`). -/
def month3 (a b c : Char) : Option Nat :=
  if a = 'j' ∧ b = 'a' ∧ c = 'n' then some 1
  else if a = 'f' ∧ b = 'e' ∧ c = 'b' then some 2
  else if a = 'm' ∧ b = 'a' ∧ c = 'r' then some 3
  else if a = 'a' ∧ b = 'p' ∧ c = 'r' then some 4
  else if a = 'm' ∧ b = 'a' ∧ c = 'y' then some 5
  else if a = 'j' ∧ b = 'u' ∧ c = 'n' then some 6
  else if a = 'j' ∧ b = 'u' ∧ c = 'l' then some 7
  else if a = 'a' ∧ b = 'u' ∧ c = 'g' then some 8
  else if a = 's' ∧ b = 'e' ∧ c = 'p' then some 9
  else if a = 'o' ∧ b = 'c' ∧ c = 't' then some 10
  else if a = 'n' ∧ b = 'o' ∧ c = 'v' then some 11
  else if a = 'd' ∧ b = 'e' ∧ c = 'c' then some 12
  else none

/-- `%b` directive: three-letter month abbreviation, case-insensitive. -/
def parseB : Str → Option (Nat × Str)
  | a :: b :: c :: rest => (month3 (lowerChar a) (lowerChar b) (lowerChar c)).map (fun m => (m, rest))
  | _ => none

/-- `strptime(s, "%b")` (whole string must be the abbreviation). -/
def month3Full (s : Str) : Option Nat :=
  match s with
  | [a, b, c] => month3 (lowerChar a) (lowerChar b) (lowerChar c)
  | _ => none

/-- `%I` directive: regex `1[0-2]|0[1-9]|[1-9]`. -/
def parseI : Str → Option (Nat × Str)
  | [] => none
  | c :: rest =>
    if c = '1' then
      match rest with
      | c2 :: rest2 => if 48 ≤ c2.toNat ∧ c2.toNat ≤ 50 then some (10 + d0 c2, rest2) else some (1, rest)
      | [] => some (1, [])
    else if c = '0' then
      match rest with
      | c2 :: rest2 => if 49 ≤ c2.toNat ∧ c2.toNat ≤ 57 then some (d0 c2, rest2) else none
      | [] => none
    else if 50 ≤ c.toNat ∧ c.toNat ≤ 57 then some (d0 c, rest)
    else none

/-- `%M` directive: regex `[0-5]\d|\d`. -/
def parseM : Str → Option (Nat × Str)
  | [] => none
  | c1 :: rest =>
    match rest with
    | c2 :: rest2 =>
      if 48 ≤ c1.toNat ∧ c1.toNat ≤ 53 ∧ isDig c2 = true then some (d0 c1 * 10 + d0 c2, rest2)
      else if isDig c1 then some (d0 c1, rest)
      else none
    | [] => if isDig c1 then some (d0 c1, []) else none

/-- `%p` directive: `am|pm`, case-insensitive; `true` means PM. -/
def parseP : Str → Option (Bool × Str)
  | a :: b :: rest =>
    if lowerChar a = 'a' ∧ lowerChar b = 'm' then some (false, rest)
    else if lowerChar a = 'p' ∧ lowerChar b = 'm' then some (true, rest)
    else none
  | _ => none

/-- 12-hour to 24-hour conversion performed by `strptime` for `%I%p`. -/
def hour24 (h : Nat) (pm : Bool) : Nat :=
  if pm then (if h = 12 then 12 else h + 12) else (if h = 12 then 0 else h)

/-- A literal character in a `strptime` format. -/
def expectC (c : Char) : Str → Option Str
  | x :: rest => if x = c then some rest else none
  | [] => none

/-- A whitespace in a `strptime` format: matches `\s+`. -/
def ws1 : Str → Option Str
  | c :: rest => if isSpaceC c then some (rest.dropWhile isSpaceC) else none
  | [] => none

/-- `%d` directive: regex `3[01]|[1-2]\d|0[1-9]|[1-9]| [1-9]`. -/
def parseD : Str → Option (Nat × Str)
  | [] => none
  | c :: rest =>
    if c = '3' then
      match rest with
      | c2 :: r2 => if c2.toNat = 48 ∨ c2.toNat = 49 then some (30 + d0 c2, r2) else some (3, rest)
      | [] => some (3, [])
    else if c.toNat = 49 ∨ c.toNat = 50 then
      match rest with
      | c2 :: r2 => if isDig c2 then some (d0 c * 10 + d0 c2, r2) else some (d0 c, rest)
      | [] => some (d0 c, [])
    else if c = '0' then
      match rest with
      | c2 :: r2 => if 49 ≤ c2.toNat ∧ c2.toNat ≤ 57 then some (d0 c2, r2) else none
      | [] => none
    else if 52 ≤ c.toNat ∧ c.toNat ≤ 57 then some (d0 c, rest)
    else if c = ' ' then
      match rest with
      | c2 :: r2 => if 49 ≤ c2.toNat ∧ c2.toNat ≤ 57 then some (d0 c2, r2) else none
      | [] => none
    else none

/-- `%y` directive (`\d\d`) with Python's century rule: 00-68 maps to
2000-2068 and 69-99 to 1969-1999. -/
def parseY : Str → Option (Int × Str)
  | c1 :: c2 :: rest =>
    if isDig c1 ∧ isDig c2 then
      let yy := d0 c1 * 10 + d0 c2
      some ((if yy ≤ 68 then (2000 + yy : Int) else (1900 + yy : Int)), rest)
    else none
  | _ => none

/-- The `"%I:%M%p"` fragment, returning a 24-hour time and the rest. -/
def parseTimeNoSpace (s : Str) : Option (Nat × Nat × Str) := do
  let (h, r1) ← parseI s
  let r2 ← expectC ':' r1
  let (mi, r3) ← parseM r2
  let (pm, r4) ← parseP r3
  pure (hour24 h pm, mi, r4)

/-- `strptime(s, "%I:%M%p").time()` (whole string consumed). -/
def parseTimeNoSpaceFull (s : Str) : Option (Nat × Nat) :=
  match parseTimeNoSpace s with
  | some (h, mi, []) => some (h, mi)
  | _ => none

/-- `strptime(s, "%I:%M %p").time()` (whole string consumed). -/
def parseTimeSpaceFull (s : Str) : Option (Nat × Nat) :=
  match (do
    let (h, r1) ← parseI s
    let r2 ← expectC ':' r1
    let (mi, r3) ← parseM r2
    let r4 ← ws1 r3
    let (pm, r5) ← parseP r4
    pure (hour24 h pm, mi, r5) : Option (Nat × Nat × Str)) with
  | some (h, mi, []) => some (h, mi)
  | _ => none

/-- The regex phase of `strptime(s, "%b-%d-%y %I:%M%p")`. -/
def parseFullDateTimeRaw (s : Str) : Option (Int × Nat × Nat × Nat × Nat × Str) := do
  let (m, r1) ← parseB s
  let r2 ← expectC '-' r1
  let (d, r3) ← parseD r2
  let r4 ← expectC '-' r3
  let (y, r5) ← parseY r4
  let r6 ← ws1 r5
  let (h, mi, r7) ← parseTimeNoSpace r6
  pure (y, m, d, h, mi, r7)

/-- `strptime(s, "%b-%d-%y %I:%M%p")`: full match, then the
`datetime` construction validates the calendar date. -/
def parseFullDateTimeFull (s : Str) : Option NaiveDT :=
  match parseFullDateTimeRaw s with
  | some (y, m, d, h, mi, []) => if validDate y m d then some ⟨y, m, d, h, mi⟩ else none
  | _ => none

def todayL : Str := ['t', 'o', 'd', 'a', 'y']

/-- `_parse_finviz_dt_et(raw, now_et, last_date_et)` of `src/main.py`
(lines 97-146): strip; a `today`-prefixed string takes `now_et`'s
calendar date; otherwise try `"%b-%d-%y %I:%M%p"` as-is (no year
adjustment); otherwise a bare `"%I:%M%p"` time borrowing
`last_date_et`, failing when that is `None`.  The result is the
`US/Eastern`-localized wall clock. -/
def _parse_finviz_dt_et (raw : Str) (now_et : NaiveDT) (last_date_et : Option CalDate) :
    Option NaiveDT :=
  if pyStrip raw = [] then none
  else if startsWithLower (pyStrip raw) todayL then
    (if 2 ≤ (pySplitWs (pyStrip raw)).length then
      match (pySplitWs (pyStrip raw)).getLast? with
      | some tstr =>
        (parseTimeNoSpaceFull tstr).map (fun t => ⟨now_et.year, now_et.month, now_et.day, t.1, t.2⟩)
      | none => none
    else none)
  else
    match parseFullDateTimeFull (pyStrip raw) with
    | some dt => some dt
    | none =>
      match parseTimeNoSpaceFull (pyStrip raw) with
      | some t =>
        match last_date_et with
        | some d => some ⟨d.year, d.month, d.day, t.1, t.2⟩
        | none => none
      | none => none

/-- A news-table row as handed over by the page-fetch collaborator:
the timestamp cell's text and the title cell's text (rows with fewer
than two cells never reach the loop body modelled here; they are
skipped exactly like empty-title rows). -/
structure Row where
  raw_dt : Str
  title : Str
deriving DecidableEq, Repr

/-- A dict appended by `fetch_finviz_news`: `published_dt_kst` holds
the KST wall clock on parse success and `none` for the empty string
stored on failure. -/
structure Item where
  title : Str
  published : Str
  published_dt_kst : Option NaiveDT
deriving DecidableEq, Repr

/-- The row loop of `fetch_finviz_news` (lines 72-93): skip empty
titles; parse via `_parse_finviz_dt_et`; on success update
`last_date_et` to the parsed instant's date and store the KST
conversion, on failure keep the row with an empty `published_dt_kst`;
`n` is `len(items)` so far, and the loop breaks once it reaches
`max_items` (checked after each append). -/
def fetchLoop (now_et : NaiveDT) (etOff : Int) (maxItems : Nat) :
    List Row → Nat → Option CalDate → List Item
  | [], _, _ => []
  | r :: rest, n, last =>
    if r.title = [] then fetchLoop now_et etOff maxItems rest n last
    else
      match _parse_finviz_dt_et r.raw_dt now_et last with
      | some dt_et =>
        if maxItems ≤ n + 1 then [⟨r.title, r.raw_dt, some (etToKst etOff dt_et)⟩]
        else ⟨r.title, r.raw_dt, some (etToKst etOff dt_et)⟩ ::
          fetchLoop now_et etOff maxItems rest (n + 1) (some (dateOf dt_et))
      | none =>
        if maxItems ≤ n + 1 then [⟨r.title, r.raw_dt, none⟩]
        else (⟨r.title, r.raw_dt, none⟩ : Item) :: fetchLoop now_et etOff maxItems rest (n + 1) last

/-- `fetch_finviz_news(ticker, now_kst, max_items)` (lines 53-95) with
the HTML traversal abstracted into the row list: convert `now_kst` to
`US/Eastern` and run the row loop with an initially unset
`last_date_et`. -/
def fetch_finviz_news (rows : List Row) (now_kst : NaiveDT) (etOff : Int) (maxItems : Nat) :
    List Item :=
  fetchLoop (etNowOf now_kst etOff) etOff maxItems rows 0 none

/-- A dict of the `recent` list built in `get_mag7_news`. -/
structure OutItem where
  title : Str
  published : Str
deriving DecidableEq, Repr

/-- The `recent` accumulation of `get_mag7_news` (lines 222-229): skip
items whose stored ISO string is empty, re-read the KST instant and
keep the item iff it is at or after the cutoff. -/
def recentOf (cutoffAbs : Int) (its : List Item) : List OutItem :=
  its.filterMap fun it =>
    match it.published_dt_kst with
    | none => none
    | some d => if cutoffAbs ≤ kstAbs d then some ⟨it.title, it.published⟩ else none

/-- `cutoff = now_kst - timedelta(hours=24)` as an absolute instant. -/
def cutoffOf (now_kst : NaiveDT) : Int := kstAbs now_kst - 1440

def mag7tickers : List Str :=
  ["AAPL".toList, "MSFT".toList, "AMZN".toList, "GOOGL".toList,
   "META".toList, "NVDA".toList, "TSLA".toList]

/-- `get_mag7_news(per_ticker)` (lines 209-241), with the network fetch
abstracted as a fallible collaborator `fetchF` and the clock as
`now_kst`: for each MAG7 ticker, a failing fetch is caught and yields
an empty entry; otherwise the fetched rows (capped at 120) are
filtered to the last 24 hours and truncated to `per_ticker`. -/
def get_mag7_news (fetchF : Str → Except Str (List Row)) (now_kst : NaiveDT) (etOff : Int)
    (perTicker : Nat) : List (Str × List OutItem) :=
  mag7tickers.map fun t =>
    (t, match fetchF t with
        | Except.error _ => []
        | Except.ok rows =>
          (recentOf (cutoffOf now_kst) (fetch_finviz_news rows now_kst etOff 120)).take perTicker)

/-- The "Case 2" field extraction of `_parse_finviz_datetime_to_kst`
(lines 174-184): hyphens to spaces, commas removed, whitespace split;
with at least four parts, `parts[0]` must be a `%b` month, `parts[1]`
an integer, and `parts[2] ++ " " ++ parts[3]` a `"%I:%M %p"` time. -/
def parseCase2Fields (txt : Str) : Option (Nat × Nat × Nat × Nat) :=
  let norm := (txt.map fun c => if c = '-' then ' ' else c).filter fun c => !(c == ',')
  match pySplitWs norm with
  | p0 :: p1 :: p2 :: p3 :: _ =>
    match month3Full p0, intParse p1, parseTimeSpaceFull (p2 ++ ' ' :: p3) with
    | some m, some d, some t => some (m, d, t.1, t.2)
    | _, _, _ => none
  | _ => none

/-- `_parse_finviz_datetime_to_kst(dt_txt, now_kst)` (lines 150-195):
interpret `"Today, H:MM AM"` or `"Mon-DD, H:MM AM"` at the current
`US/Eastern` year, and only here: if the result lands more than one
hour in the future of `now_et`, re-localize it to the previous year
(an invalid previous-year date, e.g. Feb 29, raises and yields
`none`); finally convert to KST. -/
def _parse_finviz_datetime_to_kst (dt_txt : Str) (now_kst : NaiveDT) (etOff : Int) :
    Option NaiveDT :=
  if dt_txt = [] then none
  else if startsWithLower dt_txt todayL then
    match parseTimeSpaceFull (pyStrip (afterFirstComma dt_txt)) with
    | some t =>
      some (etToKst etOff ⟨(etNowOf now_kst etOff).year, (etNowOf now_kst etOff).month,
        (etNowOf now_kst etOff).day, t.1, t.2⟩)
    | none => none
  else
    match parseCase2Fields dt_txt with
    | some (m, d, h, mi) =>
      if validDate (etNowOf now_kst etOff).year m d then
        if etAbs etOff (etNowOf now_kst etOff) + 60 <
            etAbs etOff ⟨(etNowOf now_kst etOff).year, m, d, h, mi⟩ then
          if validDate ((etNowOf now_kst etOff).year - 1) m d then
            some (etToKst etOff ⟨(etNowOf now_kst etOff).year - 1, m, d, h, mi⟩)
          else none
        else some (etToKst etOff ⟨(etNowOf now_kst etOff).year, m, d, h, mi⟩)
      else none
    | none => none

/-- `filter_last_24h(items, now_kst)` (lines 198-206): keep the items
whose stripped `published` text re-parses to an instant at or after
`now_kst - 24h`. -/
def filter_last_24h (items : List OutItem) (now_kst : NaiveDT) (etOff : Int) : List OutItem :=
  items.filter fun it =>
    match _parse_finviz_datetime_to_kst (pyStrip it.published) now_kst etOff with
    | some dt_kst => decide (cutoffOf now_kst ≤ kstAbs dt_kst)
    | none => false



/-- Test fixture: a collaborator serving one future-dated row for AAPL. -/
def fetchFuture : Str → Except Str (List Row) := fun t =>
  if t = "AAPL".toList then Except.ok [⟨"Feb-03-26 08:35AM".toList, "X".toList⟩]
  else Except.ok []

/-- Test fixture: a collaborator serving two identical rows for AAPL. -/
def fetchDup : Str → Except Str (List Row) := fun t =>
  if t = "AAPL".toList
    then Except.ok [⟨"Feb-03-26 08:35AM".toList, "S".toList⟩,
      ⟨"Feb-03-26 08:35AM".toList, "S".toList⟩]
  else Except.ok []

/-- Test fixture: a collaborator failing for MSFT only. -/
def fetchFailMsft : Str → Except Str (List Row) := fun t =>
  if t = "MSFT".toList then Except.error "boom".toList else Except.ok []

/-! ### Helper lemmas about the parsers -/

theorem lowerChar_of_lt65 {c : Char} (h : c.toNat < 65) : lowerChar c = c := by
  unfold lowerChar
  rw [if_neg]
  rintro ⟨h1, -⟩
  omega

theorem month3_none_of_lt97 (b c : Char) {a : Char} (h : a.toNat < 97) : month3 a b c = none := by
  unfold month3
  iterate 12 rw [if_neg (fun hc => absurd (hc.1 ▸ h) (by decide))]

theorem month3_t_none (y z : Char) : month3 't' y z = none := by
  unfold month3
  iterate 12 rw [if_neg (fun hc => absurd hc.1 (by decide))]

theorem month3_some_ne_t {x y z : Char} {m : Nat} (h : month3 x y z = some m) : x ≠ 't' := by
  intro hx
  rw [hx, month3_t_none] at h
  cases h

theorem parseI_head_digit : ∀ {s : Str} {p : Nat × Str}, parseI s = some p →
    ∃ c rest, s = c :: rest ∧ 48 ≤ c.toNat ∧ c.toNat ≤ 57
  | [], _, h => by cases h
  | c :: rest, p, h => by
    refine ⟨c, rest, rfl, ?_⟩
    by_cases h1 : c = '1'
    · subst h1; exact ⟨by decide, by decide⟩
    by_cases h2 : c = '0'
    · subst h2; exact ⟨by decide, by decide⟩
    by_cases h3 : 50 ≤ c.toNat ∧ c.toNat ≤ 57
    · omega
    exfalso
    have hnone : parseI (c :: rest) = none := by
      simp only [parseI]
      rw [if_neg h1, if_neg h2, if_neg h3]
    rw [hnone] at h
    cases h

theorem parseTimeNoSpaceFull_head_digit {s : Str} {t : Nat × Nat}
    (h : parseTimeNoSpaceFull s = some t) :
    ∃ c rest, s = c :: rest ∧ 48 ≤ c.toNat ∧ c.toNat ≤ 57 := by
  cases hI : parseI s with
  | none =>
    exfalso
    unfold parseTimeNoSpaceFull parseTimeNoSpace at h
    rw [hI] at h
    simp at h
  | some p => exact parseI_head_digit hI

theorem parseB_shape : ∀ {s : Str} {p : Nat × Str}, parseB s = some p →
    ∃ a b c rest, s = a :: b :: c :: rest ∧
      month3 (lowerChar a) (lowerChar b) (lowerChar c) = some p.1
  | [], _, h => by cases h
  | [a], _, h => by cases h
  | [a, b], _, h => by cases h
  | a :: b :: c :: rest, p, h => by
    refine ⟨a, b, c, rest, rfl, ?_⟩
    simp only [parseB] at h
    cases hm : month3 (lowerChar a) (lowerChar b) (lowerChar c) with
    | none => rw [hm] at h; simp at h
    | some m =>
      rw [hm] at h
      simp only [Option.map_some'] at h
      cases h
      rfl

theorem parseB_none_of_digit {c : Char} (h1 : 48 ≤ c.toNat) (h2 : c.toNat ≤ 57) (rest : Str) :
    parseB (c :: rest) = none := by
  match rest with
  | [] => rfl
  | [b] => rfl
  | b :: d :: r =>
    show (month3 (lowerChar c) (lowerChar b) (lowerChar d)).map _ = none
    rw [lowerChar_of_lt65 (by omega), month3_none_of_lt97 _ _ (by omega)]
    rfl

theorem parseFullDateTimeRaw_none {s : Str} (hB : parseB s = none) :
    parseFullDateTimeRaw s = none := by
  unfold parseFullDateTimeRaw
  rw [hB]
  rfl

theorem parseFullDateTimeFull_none_of_digit {c : Char} (h1 : 48 ≤ c.toNat) (h2 : c.toNat ≤ 57)
    (rest : Str) : parseFullDateTimeFull (c :: rest) = none := by
  unfold parseFullDateTimeFull
  rw [parseFullDateTimeRaw_none (parseB_none_of_digit h1 h2 rest)]

theorem startsWithLower_cons_ne {c p0 : Char} {rest p : Str} (h : lowerChar c ≠ p0) :
    startsWithLower (c :: rest) (p0 :: p) = false := by
  show isPrefixOfB (p0 :: p) (lowerChar c :: List.map lowerChar rest) = false
  unfold isPrefixOfB
  rw [if_neg (Ne.symm h)]

theorem startsWithLower_today_digit {c : Char} (h1 : 48 ≤ c.toNat) (h2 : c.toNat ≤ 57)
    (rest : Str) : startsWithLower (c :: rest) todayL = false := by
  show startsWithLower (c :: rest) ('t' :: ['o', 'd', 'a', 'y']) = false
  apply startsWithLower_cons_ne
  rw [lowerChar_of_lt65 (by omega)]
  intro hc
  rw [hc] at h2
  exact absurd h2 (by decide)

theorem parseFullDateTimeFull_head {s : Str} {dt : NaiveDT}
    (h : parseFullDateTimeFull s = some dt) :
    ∃ a rest, s = a :: rest ∧ lowerChar a ≠ 't' := by
  cases hB : parseB s with
  | none =>
    exfalso
    unfold parseFullDateTimeFull at h
    rw [parseFullDateTimeRaw_none hB] at h
    cases h
  | some p =>
    obtain ⟨a, b, c, r, hs, hm⟩ := parseB_shape hB
    exact ⟨a, b :: c :: r, hs, month3_some_ne_t hm⟩

/-- On a bare-time input (one that fully matches `"%I:%M%p"`), the
normalizer resolves against `last_date_et` and only that. -/
theorem timeOnly_parse (raw : Str) (now_et : NaiveDT) (last : Option CalDate) {h mi : Nat}
    (hp : parseTimeNoSpaceFull (pyStrip raw) = some (h, mi)) :
    _parse_finviz_dt_et raw now_et last =
      last.map (fun D => (⟨D.year, D.month, D.day, h, mi⟩ : NaiveDT)) := by
  obtain ⟨c, rest, hs, hd1, hd2⟩ := parseTimeNoSpaceFull_head_digit hp
  rw [hs] at hp
  unfold _parse_finviz_dt_et
  rw [hs, if_neg (List.cons_ne_nil c rest), startsWithLower_today_digit hd1 hd2]
  simp only [Bool.false_eq_true, if_false, parseFullDateTimeFull_none_of_digit hd1 hd2, hp]
  cases last <;> rfl

/-! ### Claims C1, C2, C4: the timestamp normalizers -/

/-- C1 (counterexample): the claim says the normalizer used in the
collection pipeline (`_parse_finviz_dt_et`) shifts a full-date parse
landing more than about an hour in the future to the previous year.
It does not: with reference now 2026-01-01T00:00 ET, the input
`"Feb-03-26 08:35AM"` resolves more than an hour into the future yet
is returned with its year 2026 unchanged, not as the previous-year
datetime. -/
theorem c1_counterexample :
    _parse_finviz_dt_et "Feb-03-26 08:35AM".toList ⟨2026, 1, 1, 0, 0⟩ none =
      some ⟨2026, 2, 3, 8, 35⟩ ∧
    etAbs (-300) (⟨2026, 1, 1, 0, 0⟩ : NaiveDT) + 60 < etAbs (-300) ⟨2026, 2, 3, 8, 35⟩ ∧
    (⟨2026, 2, 3, 8, 35⟩ : NaiveDT) ≠ ⟨2025, 2, 3, 8, 35⟩ :=
  ⟨by decide, by decide, by decide⟩

/-- C1 (amended): the previous-year reinterpretation exists only in
`_parse_finviz_datetime_to_kst` (the parser used by
`filter_last_24h`), and there only for month-day inputs without a
year: whenever the Case-2 fields parse, the current-year date is
valid, the localized result lies more than one hour in the future of
the reference now (converted to the source zone), and the
previous-year date is also valid, the function returns the same
month, day and time-of-day in the previous year, converted to KST.
The pipeline's own normalizer `_parse_finviz_dt_et` applies no year
shift (see the counterexample). -/
theorem c1_amended_year_wrap (now_kst : NaiveDT) (etOff : Int) (txt : Str) {m d h mi : Nat}
    (hne : txt ≠ [])
    (hnt : startsWithLower txt todayL = false)
    (hp : parseCase2Fields txt = some (m, d, h, mi))
    (hv : validDate (etNowOf now_kst etOff).year m d = true)
    (hfut : etAbs etOff (etNowOf now_kst etOff) + 60 <
      etAbs etOff ⟨(etNowOf now_kst etOff).year, m, d, h, mi⟩)
    (hv' : validDate ((etNowOf now_kst etOff).year - 1) m d = true) :
    _parse_finviz_datetime_to_kst txt now_kst etOff =
      some (etToKst etOff ⟨(etNowOf now_kst etOff).year - 1, m, d, h, mi⟩) := by
  unfold _parse_finviz_datetime_to_kst
  rw [if_neg hne, hnt]
  simp only [Bool.false_eq_true, if_false, hp, hv, eq_self_iff_true, if_true, if_pos hfut, hv']

theorem c1_amended_year_wrap_witness :
    parseCase2Fields "Dec-31, 11:40 PM".toList = some (12, 31, 23, 40) ∧
    _parse_finviz_datetime_to_kst "Dec-31, 11:40 PM".toList ⟨2027, 1, 5, 12, 0⟩ (-300) =
      some ⟨2027, 1, 1, 13, 40⟩ := by
  refine ⟨by decide, ?_⟩
  have h := @c1_amended_year_wrap ⟨2027, 1, 5, 12, 0⟩ (-300) ("Dec-31, 11:40 PM".toList)
    12 31 23 40 (by decide) (by decide) (by decide) (by decide) (by decide) (by decide)
  rw [h]
  decide

/-- C2: on any time-only input (a bare 12-hour time with meridiem that
fully matches `"%I:%M%p"`), the pipeline's normalizer returns `none`
when `last_date_et` is unset, for every reference now: no date is
defaulted. -/
theorem c2_time_only_unset_context_fails (raw : Str) (now_et : NaiveDT) {h mi : Nat}
    (hp : parseTimeNoSpaceFull (pyStrip raw) = some (h, mi)) :
    _parse_finviz_dt_et raw now_et none = none := by
  rw [timeOnly_parse raw now_et none hp]
  rfl

theorem c2_witness :
    parseTimeNoSpaceFull (pyStrip "08:12AM".toList) = some (8, 12) ∧
    _parse_finviz_dt_et "08:12AM".toList ⟨2026, 2, 3, 10, 0⟩ none = none :=
  ⟨by decide,
   @c2_time_only_unset_context_fails "08:12AM".toList ⟨2026, 2, 3, 10, 0⟩ 8 12 (by decide)⟩

/-- C4: any input that fully matches `"%b-%d-%y %I:%M%p"` (with a valid
calendar date) is resolved by the pipeline's normalizer to exactly the
parsed wall-clock datetime in the source zone, independently of the
reference now and of `last_date_et` (no context is consulted);
deterministic because the normalizer is a function. -/
theorem c4_full_date_context_free (raw : Str) (now_et : NaiveDT) (last : Option CalDate)
    {dt : NaiveDT} (hp : parseFullDateTimeFull (pyStrip raw) = some dt) :
    _parse_finviz_dt_et raw now_et last = some dt := by
  obtain ⟨a, rest, hs, ha⟩ := parseFullDateTimeFull_head hp
  rw [hs] at hp
  unfold _parse_finviz_dt_et
  rw [hs, if_neg (List.cons_ne_nil a rest)]
  rw [show startsWithLower (a :: rest) todayL = false from by
    show startsWithLower (a :: rest) ('t' :: ['o', 'd', 'a', 'y']) = false
    exact startsWithLower_cons_ne ha]
  simp only [Bool.false_eq_true, if_false, hp]

theorem c4_witness :
    parseFullDateTimeFull (pyStrip "Feb-03-26 08:35AM".toList) = some ⟨2026, 2, 3, 8, 35⟩ ∧
    _parse_finviz_dt_et "Feb-03-26 08:35AM".toList ⟨2026, 6, 1, 12, 0⟩ none =
      some ⟨2026, 2, 3, 8, 35⟩ :=
  ⟨by decide,
   c4_full_date_context_free "Feb-03-26 08:35AM".toList ⟨2026, 6, 1, 12, 0⟩ none (by decide)⟩

/-! ### Claims C3, C8, C10: the row loop of `fetch_finviz_news` -/

/-- C3: in the row loop, a successful parse updates the shared context
to the parsed instant's source-zone calendar date, and a following
time-only row (still under the cap) parses against exactly that date:
its emitted item carries the KST conversion of that date combined
with the parsed time-of-day, and the loop continues with the same
date. -/
theorem c3_context_propagation (now_et : NaiveDT) (etOff : Int) (maxI n : Nat)
    (last : Option CalDate) (r1 r2 : Row) (rest : List Row) {dt1 : NaiveDT} {h mi : Nat}
    (ht1 : r1.title ≠ [])
    (ht2 : r2.title ≠ [])
    (hp1 : _parse_finviz_dt_et r1.raw_dt now_et last = some dt1)
    (hp2 : parseTimeNoSpaceFull (pyStrip r2.raw_dt) = some (h, mi))
    (hcap : n + 1 < maxI) :
    ∃ tail, fetchLoop now_et etOff maxI (r1 :: r2 :: rest) n last =
      (⟨r1.title, r1.raw_dt, some (etToKst etOff dt1)⟩ : Item) ::
      (⟨r2.title, r2.raw_dt,
        some (etToKst etOff ⟨dt1.year, dt1.month, dt1.day, h, mi⟩)⟩ : Item) :: tail := by
  refine ⟨if maxI ≤ n + 1 + 1 then [] else
    fetchLoop now_et etOff maxI rest (n + 1 + 1) (some ⟨dt1.year, dt1.month, dt1.day⟩), ?_⟩
  have h2 := timeOnly_parse r2.raw_dt now_et (some (dateOf dt1)) hp2
  simp only [Option.map_some'] at h2
  simp only [fetchLoop, if_neg ht1, hp1, if_neg (show ¬maxI ≤ n + 1 from by omega), if_neg ht2]
  simp only [h2]
  simp only [dateOf]
  by_cases hc : maxI ≤ n + 1 + 1
  · simp only [if_pos hc]
  · simp only [if_neg hc]

theorem c3_witness :
    ∃ tail, fetchLoop ⟨2026, 2, 4, 9, 0⟩ (-300) 80
        [⟨"Feb-03-26 08:35AM".toList, "Z".toList⟩, ⟨"07:00AM".toList, "Y".toList⟩] 0 none =
      (⟨"Z".toList, "Feb-03-26 08:35AM".toList, some (etToKst (-300) ⟨2026, 2, 3, 8, 35⟩)⟩ : Item) ::
      (⟨"Y".toList, "07:00AM".toList, some (etToKst (-300) ⟨2026, 2, 3, 7, 0⟩)⟩ : Item) :: tail :=
  @c3_context_propagation ⟨2026, 2, 4, 9, 0⟩ (-300) 80 0 none
    ⟨"Feb-03-26 08:35AM".toList, "Z".toList⟩ ⟨"07:00AM".toList, "Y".toList⟩ []
    ⟨2026, 2, 3, 8, 35⟩ 7 0 (by decide) (by decide) (by decide) (by decide) (by decide)

/-- C8: a row whose timestamp fails to parse is appended with an empty
`published_dt_kst` and the loop's `last_date_et` is left unchanged;
the 24-hour filter of `get_mag7_news` then skips every such item, so
the row never reaches the pipeline output and no default instant is
assigned. -/
theorem c8_unparseable_row_dropped (now_et : NaiveDT) (etOff : Int) (maxI n : Nat)
    (last : Option CalDate) (r : Row) (rest : List Row) (cutoffAbs : Int) (its : List Item)
    (ht : r.title ≠ [])
    (hp : _parse_finviz_dt_et r.raw_dt now_et last = none) :
    fetchLoop now_et etOff maxI (r :: rest) n last =
      (⟨r.title, r.raw_dt, none⟩ : Item) ::
        (if maxI ≤ n + 1 then [] else fetchLoop now_et etOff maxI rest (n + 1) last) ∧
    recentOf cutoffAbs ((⟨r.title, r.raw_dt, none⟩ : Item) :: its) = recentOf cutoffAbs its := by
  constructor
  · simp only [fetchLoop, if_neg ht, hp]
    by_cases hc : maxI ≤ n + 1
    · rw [if_pos hc, if_pos hc]
    · rw [if_neg hc, if_neg hc]
  · simp [recentOf]

theorem c8_witness :
    _parse_finviz_dt_et "garbage".toList ⟨2026, 2, 4, 9, 0⟩ none = none ∧
    fetchLoop ⟨2026, 2, 4, 9, 0⟩ (-300) 80 [⟨"garbage".toList, "T".toList⟩] 0 none =
      [(⟨"T".toList, "garbage".toList, none⟩ : Item)] ∧
    recentOf 0 [(⟨"T".toList, "garbage".toList, none⟩ : Item)] = [] := by
  refine ⟨by decide, ?_, ?_⟩
  · have h := c8_unparseable_row_dropped ⟨2026, 2, 4, 9, 0⟩ (-300) 80 0 none
      ⟨"garbage".toList, "T".toList⟩ [] 0 [] (by decide) (by decide)
    rw [h.1]
    decide
  · exact (c8_unparseable_row_dropped ⟨2026, 2, 4, 9, 0⟩ (-300) 80 0 none
      ⟨"garbage".toList, "T".toList⟩ [] 0 [] (by decide) (by decide)).2

theorem fetchLoop_length (now_et : NaiveDT) (etOff : Int) (maxI : Nat) :
    ∀ (rows : List Row) (n : Nat) (last : Option CalDate), n < maxI →
      (fetchLoop now_et etOff maxI rows n last).length + n ≤ maxI
  | [], n, _, hn => by
    simp only [fetchLoop, List.length_nil]
    omega
  | r :: rest, n, last, hn => by
    simp only [fetchLoop]
    by_cases ht : r.title = []
    · rw [if_pos ht]
      exact fetchLoop_length now_et etOff maxI rest n last hn
    rw [if_neg ht]
    cases hp : _parse_finviz_dt_et r.raw_dt now_et last with
    | some dt =>
      simp only []
      by_cases hc : maxI ≤ n + 1
      · simp only [if_pos hc, List.length_singleton]
        omega
      · simp only [if_neg hc, List.length_cons]
        have := fetchLoop_length now_et etOff maxI rest (n + 1) (some (dateOf dt)) (by omega)
        omega
    | none =>
      simp only []
      by_cases hc : maxI ≤ n + 1
      · simp only [if_pos hc, List.length_singleton]
        omega
      · simp only [if_neg hc, List.length_cons]
        have := fetchLoop_length now_et etOff maxI rest (n + 1) last (by omega)
        omega

theorem fetchLoop_stop (now_et : NaiveDT) (etOff : Int) (maxI : Nat) :
    ∀ (rows extra : List Row) (n : Nat) (last : Option CalDate), n < maxI →
      (fetchLoop now_et etOff maxI rows n last).length + n = maxI →
      fetchLoop now_et etOff maxI (rows ++ extra) n last = fetchLoop now_et etOff maxI rows n last
  | [], extra, n, _, hn, hlen => by
    exfalso
    simp only [fetchLoop, List.length_nil] at hlen
    omega
  | r :: rest, extra, n, last, hn, hlen => by
    simp only [List.cons_append, fetchLoop] at hlen ⊢
    by_cases ht : r.title = []
    · simp only [if_pos ht] at hlen ⊢
      exact fetchLoop_stop now_et etOff maxI rest extra n last hn hlen
    simp only [if_neg ht] at hlen ⊢
    cases hp : _parse_finviz_dt_et r.raw_dt now_et last with
    | some dt =>
      rw [hp] at hlen
      simp only [] at hlen ⊢
      by_cases hc : maxI ≤ n + 1
      · simp only [if_pos hc]
      · simp only [if_neg hc] at hlen ⊢
        simp only [List.length_cons] at hlen
        exact congrArg (List.cons _) (fetchLoop_stop now_et etOff maxI rest extra (n + 1)
          (some (dateOf dt)) (by omega) (by omega))
    | none =>
      rw [hp] at hlen
      simp only [] at hlen ⊢
      by_cases hc : maxI ≤ n + 1
      · simp only [if_pos hc]
      · simp only [if_neg hc] at hlen ⊢
        simp only [List.length_cons] at hlen
        exact congrArg (List.cons _) (fetchLoop_stop now_et etOff maxI rest extra (n + 1)
          last (by omega) (by omega))

/-- C10: with a positive cap, the raw-row collection step returns at
most `max_items` items; and once the scan of a row list has already
accumulated `max_items` items (each from a row with a non-empty
title), appending further table rows changes nothing: they are never
examined or emitted. -/
theorem c10_cap (now_kst : NaiveDT) (etOff : Int) (maxI : Nat) (rows extra : List Row)
    (hpos : 0 < maxI) :
    (fetch_finviz_news rows now_kst etOff maxI).length ≤ maxI ∧
    ((fetch_finviz_news rows now_kst etOff maxI).length = maxI →
      fetch_finviz_news (rows ++ extra) now_kst etOff maxI =
        fetch_finviz_news rows now_kst etOff maxI) := by
  constructor
  · have := fetchLoop_length (etNowOf now_kst etOff) etOff maxI rows 0 none hpos
    unfold fetch_finviz_news
    omega
  · intro hlen
    unfold fetch_finviz_news at hlen ⊢
    exact fetchLoop_stop (etNowOf now_kst etOff) etOff maxI rows extra 0 none hpos (by omega)

theorem c10_witness :
    0 < 1 ∧
    (fetch_finviz_news [⟨"Feb-03-26 08:35AM".toList, "A".toList⟩] ⟨2026, 2, 4, 9, 0⟩
      (-300) 1).length ≤ 1 ∧
    ((fetch_finviz_news [⟨"Feb-03-26 08:35AM".toList, "A".toList⟩] ⟨2026, 2, 4, 9, 0⟩
        (-300) 1).length = 1 →
      fetch_finviz_news ([⟨"Feb-03-26 08:35AM".toList, "A".toList⟩] ++
          [⟨"07:00AM".toList, "B".toList⟩]) ⟨2026, 2, 4, 9, 0⟩ (-300) 1 =
        fetch_finviz_news [⟨"Feb-03-26 08:35AM".toList, "A".toList⟩] ⟨2026, 2, 4, 9, 0⟩
          (-300) 1) :=
  ⟨by decide,
   c10_cap ⟨2026, 2, 4, 9, 0⟩ (-300) 1 [⟨"Feb-03-26 08:35AM".toList, "A".toList⟩]
     [⟨"07:00AM".toList, "B".toList⟩] (by decide)⟩

/-! ### Claims C5, C6, C7, C9: window filter and orchestrator -/

/-- C5: the 24-hour window's lower bound is inclusive, in both the
`recent` accumulation of `get_mag7_news` and in `filter_last_24h`: an
item whose KST instant equals the cutoff `now - 24h` is retained, and
one whose instant is one unit (a minute, the model's granularity)
before the cutoff is excluded. -/
theorem c5_window_lower_bound_inclusive (now_kst : NaiveDT) (etOff : Int) :
    (∀ (itm : Item) (d : NaiveDT), itm.published_dt_kst = some d →
      (kstAbs d = cutoffOf now_kst →
        recentOf (cutoffOf now_kst) [itm] = [⟨itm.title, itm.published⟩]) ∧
      (kstAbs d + 1 = cutoffOf now_kst → recentOf (cutoffOf now_kst) [itm] = [])) ∧
    (∀ (it : OutItem) (dtk : NaiveDT),
      _parse_finviz_datetime_to_kst (pyStrip it.published) now_kst etOff = some dtk →
      (kstAbs dtk = cutoffOf now_kst → filter_last_24h [it] now_kst etOff = [it]) ∧
      (kstAbs dtk + 1 = cutoffOf now_kst → filter_last_24h [it] now_kst etOff = [])) := by
  constructor
  · intro itm d hd
    constructor
    · intro he
      simp [recentOf, hd, he]
    · intro he
      simp [recentOf, hd, show ¬(cutoffOf now_kst ≤ kstAbs d) from by omega]
  · intro it dtk hk
    constructor
    · intro he
      simp [filter_last_24h, hk, he]
    · intro he
      simp [filter_last_24h, hk, show ¬(cutoffOf now_kst ≤ kstAbs dtk) from by omega]

theorem c5_witness :
    recentOf (cutoffOf ⟨2026, 2, 4, 20, 40⟩)
        [⟨"X".toList, "p".toList, some ⟨2026, 2, 3, 20, 40⟩⟩] =
      [⟨"X".toList, "p".toList⟩] ∧
    recentOf (cutoffOf ⟨2026, 2, 4, 20, 40⟩)
        [⟨"X".toList, "p".toList, some ⟨2026, 2, 3, 20, 39⟩⟩] = [] ∧
    filter_last_24h [⟨"X".toList, "Feb-03, 6:40 AM".toList⟩] ⟨2026, 2, 4, 20, 40⟩ (-300) =
      [⟨"X".toList, "Feb-03, 6:40 AM".toList⟩] ∧
    filter_last_24h [⟨"X".toList, "Feb-03, 6:39 AM".toList⟩] ⟨2026, 2, 4, 20, 40⟩ (-300) = [] := by
  refine ⟨?_, ?_, ?_, ?_⟩
  · exact ((c5_window_lower_bound_inclusive ⟨2026, 2, 4, 20, 40⟩ (-300)).1
      ⟨"X".toList, "p".toList, some ⟨2026, 2, 3, 20, 40⟩⟩ ⟨2026, 2, 3, 20, 40⟩ rfl).1 (by decide)
  · exact ((c5_window_lower_bound_inclusive ⟨2026, 2, 4, 20, 40⟩ (-300)).1
      ⟨"X".toList, "p".toList, some ⟨2026, 2, 3, 20, 39⟩⟩ ⟨2026, 2, 3, 20, 39⟩ rfl).2 (by decide)
  · exact ((c5_window_lower_bound_inclusive ⟨2026, 2, 4, 20, 40⟩ (-300)).2
      ⟨"X".toList, "Feb-03, 6:40 AM".toList⟩ ⟨2026, 2, 3, 20, 40⟩ (by decide)).1 (by decide)
  · exact ((c5_window_lower_bound_inclusive ⟨2026, 2, 4, 20, 40⟩ (-300)).2
      ⟨"X".toList, "Feb-03, 6:39 AM".toList⟩ ⟨2026, 2, 3, 20, 39⟩ (by decide)).2 (by decide)

/-- C6 (counterexample): the claim's upper bound fails.  With
reference now 2026-01-01T14:00 KST (2026-01-01T00:00 ET) a fetched
row carrying `"Feb-03-26 08:35AM"` parses to a future instant
(2026-02-03T22:35 KST), passes the filter (it is after the cutoff)
and is output for its ticker, even though its published instant lies
strictly after `reference_now`. -/
theorem c6_counterexample :
    ("AAPL".toList, [(⟨"X".toList, "Feb-03-26 08:35AM".toList⟩ : OutItem)]) ∈
      get_mag7_news fetchFuture ⟨2026, 1, 1, 14, 0⟩ (-300) 5 ∧
    fetch_finviz_news [⟨"Feb-03-26 08:35AM".toList, "X".toList⟩] ⟨2026, 1, 1, 14, 0⟩ (-300) 120 =
      [⟨"X".toList, "Feb-03-26 08:35AM".toList, some ⟨2026, 2, 3, 22, 35⟩⟩] ∧
    kstAbs ⟨2026, 1, 1, 14, 0⟩ < kstAbs ⟨2026, 2, 3, 22, 35⟩ :=
  ⟨by decide, by decide, by decide⟩

/-- C6 (amended): only the lower bound of the claimed window invariant
holds: every item in the pipeline output for a ticker stems from a
fetched item whose KST instant is at or after
`cutoff = reference_now - 24h`.  No upper bound is enforced (see the
counterexample). -/
theorem c6_lower_bound (fetchF : Str → Except Str (List Row)) (now_kst : NaiveDT)
    (etOff : Int) (perTicker : Nat) (t : Str) (lst : List OutItem) (it : OutItem)
    (hmem : (t, lst) ∈ get_mag7_news fetchF now_kst etOff perTicker)
    (hit : it ∈ lst) :
    ∃ rows, fetchF t = Except.ok rows ∧
      ∃ fi ∈ fetch_finviz_news rows now_kst etOff 120,
        fi.title = it.title ∧ fi.published = it.published ∧
        ∃ d, fi.published_dt_kst = some d ∧ cutoffOf now_kst ≤ kstAbs d := by
  unfold get_mag7_news at hmem
  obtain ⟨t', ht', heq⟩ := List.mem_map.1 hmem
  injection heq with h1 h2
  subst h1
  cases hf : fetchF t' with
  | error e =>
    rw [hf] at h2
    simp only [] at h2
    subst h2
    cases hit
  | ok rows =>
    rw [hf] at h2
    simp only [] at h2
    refine ⟨rows, rfl, ?_⟩
    subst h2
    have hit' : it ∈ recentOf (cutoffOf now_kst) (fetch_finviz_news rows now_kst etOff 120) :=
      List.take_subset _ _ hit
    obtain ⟨fi, hfi, hf2⟩ := List.mem_filterMap.1 hit'
    refine ⟨fi, hfi, ?_⟩
    cases hk : fi.published_dt_kst with
    | none =>
      rw [hk] at hf2
      simp only [] at hf2
      cases hf2
    | some d =>
      rw [hk] at hf2
      simp only [] at hf2
      by_cases hcond : cutoffOf now_kst ≤ kstAbs d
      · rw [if_pos hcond] at hf2
        injection hf2 with hf3
        rw [← hf3]
        exact ⟨rfl, rfl, d, rfl, hcond⟩
      · rw [if_neg hcond] at hf2
        cases hf2

theorem c6_lower_bound_witness :
    ("AAPL".toList, [(⟨"X".toList, "Feb-03-26 08:35AM".toList⟩ : OutItem)]) ∈
      get_mag7_news fetchFuture ⟨2026, 1, 1, 14, 0⟩ (-300) 5 ∧
    (∃ rows, fetchFuture "AAPL".toList = Except.ok rows ∧
      ∃ fi ∈ fetch_finviz_news rows ⟨2026, 1, 1, 14, 0⟩ (-300) 120,
        fi.title = "X".toList ∧ fi.published = "Feb-03-26 08:35AM".toList ∧
        ∃ d, fi.published_dt_kst = some d ∧ cutoffOf ⟨2026, 1, 1, 14, 0⟩ ≤ kstAbs d) :=
  ⟨by decide,
   c6_lower_bound fetchFuture ⟨2026, 1, 1, 14, 0⟩ (-300) 5 "AAPL".toList
     [(⟨"X".toList, "Feb-03-26 08:35AM".toList⟩ : OutItem)]
     ⟨"X".toList, "Feb-03-26 08:35AM".toList⟩ (by decide) (by decide)⟩

/-- C7 (counterexample): the pipeline performs no deduplication: two
fetched rows with the identical title (hence the identical DedupeKey
under any title normalization) both survive to the per-ticker output. -/
theorem c7_counterexample :
    ("AAPL".toList,
      [(⟨"S".toList, "Feb-03-26 08:35AM".toList⟩ : OutItem),
       (⟨"S".toList, "Feb-03-26 08:35AM".toList⟩ : OutItem)]) ∈
      get_mag7_news fetchDup ⟨2026, 2, 4, 10, 0⟩ (-300) 5 := by decide

theorem filterMap_sublist_map {α β : Type} (f : α → Option β) (g : α → β)
    (hfg : ∀ a b, f a = some b → b = g a) : ∀ l : List α, (l.filterMap f).Sublist (l.map g)
  | [] => by simp
  | a :: l => by
    cases hfa : f a with
    | none =>
      rw [List.filterMap_cons_none, List.map_cons]
      · exact List.Sublist.cons _ (filterMap_sublist_map f g hfg l)
      · exact hfa
    | some b =>
      rw [List.filterMap_cons_some hfa, List.map_cons, hfg a b hfa]
      exact List.Sublist.cons₂ _ (filterMap_sublist_map f g hfg l)

/-- C7 (amended): no deduplication is applied (the counterexample
shows equal-keyed items repeating); what does hold of the claim is
order preservation: each successful per-ticker output is an in-order
subsequence of the title/raw-timestamp projections of the fetched
items, truncated first-to-last (no reordering, cap applied at the
end). -/
theorem c7_amended_no_dedup_order (fetchF : Str → Except Str (List Row)) (now_kst : NaiveDT)
    (etOff : Int) (perTicker : Nat) (t : Str) (lst : List OutItem) (rows : List Row)
    (hf : fetchF t = Except.ok rows)
    (hmem : (t, lst) ∈ get_mag7_news fetchF now_kst etOff perTicker) :
    lst.Sublist ((fetch_finviz_news rows now_kst etOff 120).map
      fun fi => (⟨fi.title, fi.published⟩ : OutItem)) := by
  unfold get_mag7_news at hmem
  obtain ⟨t', ht', heq⟩ := List.mem_map.1 hmem
  injection heq with h1 h2
  subst h1
  rw [hf] at h2
  simp only [] at h2
  subst h2
  refine (List.take_sublist _ _).trans (filterMap_sublist_map _ _ ?_ _)
  intro fi o hfo
  cases hk : fi.published_dt_kst with
  | none =>
    rw [hk] at hfo
    simp only [] at hfo
    cases hfo
  | some d =>
    rw [hk] at hfo
    simp only [] at hfo
    by_cases hcond : cutoffOf now_kst ≤ kstAbs d
    · rw [if_pos hcond] at hfo
      injection hfo with hfo'
      exact hfo'.symm
    · rw [if_neg hcond] at hfo
      cases hfo

theorem c7_amended_witness :
    fetchDup "AAPL".toList =
      Except.ok [⟨"Feb-03-26 08:35AM".toList, "S".toList⟩,
        ⟨"Feb-03-26 08:35AM".toList, "S".toList⟩] ∧
    List.Sublist
      [(⟨"S".toList, "Feb-03-26 08:35AM".toList⟩ : OutItem),
       (⟨"S".toList, "Feb-03-26 08:35AM".toList⟩ : OutItem)]
      ((fetch_finviz_news [⟨"Feb-03-26 08:35AM".toList, "S".toList⟩,
          ⟨"Feb-03-26 08:35AM".toList, "S".toList⟩] ⟨2026, 2, 4, 10, 0⟩ (-300) 120).map
        fun fi => (⟨fi.title, fi.published⟩ : OutItem)) :=
  ⟨rfl,
   c7_amended_no_dedup_order fetchDup ⟨2026, 2, 4, 10, 0⟩ (-300) 5 "AAPL".toList
     [(⟨"S".toList, "Feb-03-26 08:35AM".toList⟩ : OutItem),
      (⟨"S".toList, "Feb-03-26 08:35AM".toList⟩ : OutItem)]
     [⟨"Feb-03-26 08:35AM".toList, "S".toList⟩, ⟨"Feb-03-26 08:35AM".toList, "S".toList⟩]
     rfl (by decide)⟩

/-- C9: the orchestrator records an entry for every requested ticker
in order (it is a total function, so no exception escapes the batch
in the model), and a ticker whose fetch collaborator fails is caught
and mapped to the empty entry while every other ticker's entry is
computed independently from its own fetch result. -/
theorem c9_failure_isolation (fetchF : Str → Except Str (List Row)) (now_kst : NaiveDT)
    (etOff : Int) (perTicker : Nat) :
    (get_mag7_news fetchF now_kst etOff perTicker).map Prod.fst = mag7tickers ∧
    ∀ t e, t ∈ mag7tickers → fetchF t = Except.error e →
      (t, ([] : List OutItem)) ∈ get_mag7_news fetchF now_kst etOff perTicker := by
  constructor
  · unfold get_mag7_news
    rw [List.map_map]
    exact List.map_id _
  · intro t e ht hfe
    unfold get_mag7_news
    refine List.mem_map.2 ⟨t, ht, ?_⟩
    simp only [hfe]

theorem c9_witness :
    fetchFailMsft "MSFT".toList = Except.error "boom".toList ∧
    "MSFT".toList ∈ mag7tickers ∧
    ("MSFT".toList, ([] : List OutItem)) ∈
      get_mag7_news fetchFailMsft ⟨2026, 2, 4, 10, 0⟩ (-300) 5 :=
  ⟨rfl, by decide,
   (c9_failure_isolation fetchFailMsft ⟨2026, 2, 4, 10, 0⟩ (-300) 5).2 "MSFT".toList
     "boom".toList (by decide) rfl⟩
